import Mathlib

/-!
Shallow embedding of the iron-dome monitor (src/irondome.py) and proofs of the
specification claims.  Pure numeric comparisons of the event handler are
embedded generically over a linear ordered field (Python floats become exact
field values); file-system interaction is passed in explicitly as probe
results, with fallible operations returning an Except value; the entropy
computation itself is embedded over the real numbers.
-/

namespace Irondome

/-- Error kinds a file-system call of the Python runtime can raise while
probing a file (open, stat, read, or the type sniffer). -/
inductive IOError where
  | fileNotFound
  | permissionDenied
deriving DecidableEq

/-- Embedding of the namedtuple FileInfo('entropy, mime'): the per-file
baseline stored for each tracked path. -/
structure FileInfo (α : Type) where
  entropy : α
  mime : String
deriving DecidableEq

/-- The handler's file_infos dict: a partial map from path to baseline. -/
abbrev Store (α : Type) : Type := String → Option (FileInfo α)

/-- The empty dict the initial scan starts from. -/
def Store.empty (α : Type) : Store α := fun _ => none

/-- Dict assignment, self.file_infos[p] = v. -/
def Store.set {α : Type} (st : Store α) (p : String) (v : FileInfo α) : Store α :=
  fun q => if q = p then some v else st q

/-- Dict deletion, del self.file_infos[p]. -/
def Store.del {α : Type} (st : Store α) (p : String) : Store α :=
  fun q => if q = p then none else st q

/-- One line written to the log, kept structured: the info lines and the two
warning lines the handler can emit. -/
inductive LogMsg (α : Type) where
  | info (msg : String)
  | warnEntropy (path : String) (diff : α)
  | warnMime (path : String) (oldMime newMime : String)
deriving DecidableEq

/-- Whether a log line is a warning (of either kind). -/
def LogMsg.isWarning {α : Type} : LogMsg α → Bool
  | LogMsg.info _ => false
  | LogMsg.warnEntropy _ _ => true
  | LogMsg.warnMime _ _ _ => true

/-- Whether a log line is the entropy-increase warning. -/
def LogMsg.isEntropyWarning {α : Type} : LogMsg α → Bool
  | LogMsg.warnEntropy _ _ => true
  | _ => false

/-- Whether a log line is the MIME-change warning. -/
def LogMsg.isMimeWarning {α : Type} : LogMsg α → Bool
  | LogMsg.warnMime _ _ _ => true
  | _ => false

/-- The file-system responses observed while one event is handled:
the result of the os.path.exists check made by __update_info, the value
returned by the file_entropy call (an exception if the read fails), and the
value returned by __get_mime (an exception if the sniffer's read fails). -/
structure Probe (α : Type) where
  pathExists : Bool
  entropyRes : Except IOError α
  mimeRes : Except IOError String

/-- FileModEventHandler.ENTROPY_LIMIT = 0.01. -/
def ENTROPY_LIMIT (α : Type) [LinearOrderedField α] : α := 1 / 100

/-- Outcome of one handler method: either the new store together with the log
lines written, or the exception that escaped the method. -/
abbrev HandlerResult (α : Type) : Type := Except IOError (Store α × List (LogMsg α))

/-- Whether the handler method raised (its exception escapes to watchdog's
dispatch thread). -/
def resultRaises {α : Type} : HandlerResult α → Bool
  | Except.ok _ => false
  | Except.error _ => true

/-- The store left behind by a handler method that returned normally
(junk value for a raising run, which leaves no result). -/
def resultStore {α : Type} : HandlerResult α → Store α
  | Except.ok (st, _) => st
  | Except.error _ => Store.empty α

/-- The log lines written by a handler method that returned normally. -/
def resultLog {α : Type} : HandlerResult α → List (LogMsg α)
  | Except.ok (_, log) => log
  | Except.error _ => []

/-- FileModEventHandler.on_created: log, then unconditionally store a freshly
measured baseline for the created path.  No comparison is made. -/
def on_created {α : Type} (pr : Probe α) (st : Store α) (p : String) :
    Except IOError (Store α × List (LogMsg α)) := do
  let e ← pr.entropyRes
  let m ← pr.mimeRes
  pure (st.set p ⟨e, m⟩, [LogMsg.info (p ++ (" created"))])

/-- FileModEventHandler.on_closed: log only, no state change. -/
def on_closed {α : Type} (st : Store α) (p : String) : Store α × List (LogMsg α) :=
  (st, [LogMsg.info (p ++ (" closed"))])

/-- FileModEventHandler.on_deleted: log; if the path is untracked return,
otherwise delete its entry. -/
def on_deleted {α : Type} (st : Store α) (p : String) : Store α × List (LogMsg α) :=
  let log := [LogMsg.info (p ++ (" deleted"))]
  if (st p).isNone then (st, log) else (st.del p, log)

/-- FileModEventHandler.__update_info: return if untracked; if the existence
check fails delete the entry and return; otherwise recompute entropy and MIME
(either call may raise, and nothing catches it), emit the entropy warning when
the increase exceeds ENTROPY_LIMIT, emit the MIME warning when the label
changed, and replace the baseline. -/
def update_info {α : Type} [LinearOrderedField α] (pr : Probe α) (st : Store α)
    (p : String) : Except IOError (Store α × List (LogMsg α)) :=
  match st p with
  | none => pure (st, [])
  | some old =>
    if pr.pathExists = false then pure (st.del p, [])
    else do
      let new_entropy ← pr.entropyRes
      let new_mime ← pr.mimeRes
      let entropy_diff := new_entropy - old.entropy
      let entropyLog :=
        if entropy_diff > ENTROPY_LIMIT α then [LogMsg.warnEntropy p entropy_diff] else []
      let mimeLog :=
        if new_mime ≠ old.mime then [LogMsg.warnMime p old.mime new_mime] else []
      pure (st.set p ⟨new_entropy, new_mime⟩, entropyLog ++ mimeLog)

/-- FileModEventHandler.on_modified: log, then run __update_info. -/
def on_modified {α : Type} [LinearOrderedField α] (pr : Probe α) (st : Store α)
    (p : String) : Except IOError (Store α × List (LogMsg α)) := do
  let r ← update_info pr st p
  pure (r.1, LogMsg.info (p ++ (" modified")) :: r.2)

/-- FileModEventHandler.on_moved: log; if src is tracked, move its baseline to
dest and run __update_info on dest; otherwise store a freshly measured
baseline for dest. -/
def on_moved {α : Type} [LinearOrderedField α] (pr : Probe α) (st : Store α)
    (src dest : String) : Except IOError (Store α × List (LogMsg α)) :=
  match st src with
  | some old => do
    let r ← update_info pr ((st.set dest old).del src) dest
    pure (r.1, LogMsg.info (src ++ (" moved to ") ++ dest) :: r.2)
  | none => do
    let e ← pr.entropyRes
    let m ← pr.mimeRes
    pure (st.set dest ⟨e, m⟩, [LogMsg.info (src ++ (" moved to ") ++ dest)])

/-- The event kinds watchdog delivers to the handler. -/
inductive FsEvent where
  | created (p : String)
  | closed (p : String)
  | deleted (p : String)
  | modified (p : String)
  | moved (src dest : String)

/-- Dispatch of one delivered event to the matching handler method. -/
def dispatch {α : Type} [LinearOrderedField α] (pr : Probe α) (st : Store α) :
    FsEvent → Except IOError (Store α × List (LogMsg α))
  | FsEvent.created p => on_created pr st p
  | FsEvent.closed p => pure (on_closed st p)
  | FsEvent.deleted p => pure (on_deleted st p)
  | FsEvent.modified p => on_modified pr st p
  | FsEvent.moved src dest => on_moved pr st src dest

/-- Serialized processing of a stream of events, each with the file-system
responses observed while it is handled; stops at the first escaped
exception. -/
def processEvents {α : Type} [LinearOrderedField α] :
    List (FsEvent × Probe α) → Store α → Except IOError (Store α × List (LogMsg α))
  | [], st => pure (st, [])
  | (ev, pr) :: rest, st => do
    let r ← dispatch pr st ev
    let r2 ← processEvents rest r.1
    pure (r2.1, r.2 ++ r2.2)

/-- os.path.join of a walk root and a file name. -/
def joinPath (root file : String) : String := root ++ ("/") ++ file

/-- The external collaborators the scan and the watch use: os.walk (folders
are ignored by the scan, so only root and files are kept), fnmatch matching,
os.path.isdir, and the measurement FileInfo(file_entropy(p), __get_mime(p))
taken for a path during the initial scan. -/
structure WatchEnv (α : Type) where
  walk : String → List (String × List String)
  matchesPattern : String → String → Bool
  isdir : String → Bool
  measure : String → FileInfo α

/-- Innermost loop of __init_file_infos: insert a measured baseline for every
file of one walk entry that survived the pattern filter. -/
def scanFiles {α : Type} (measure : String → FileInfo α) (r : String)
    (files : List String) (st : Store α) : Store α :=
  files.foldl (fun acc file => acc.set (joinPath r file) (measure (joinPath r file))) st

/-- Middle loop of __init_file_infos: apply the fnmatch filter for every
configured pattern over one walk entry. -/
def scanPatterns {α : Type} (w : WatchEnv α) (r : String) (files : List String)
    (patterns : List String) (st : Store α) : Store α :=
  patterns.foldl
    (fun acc pattern => scanFiles w.measure r (files.filter (fun f => w.matchesPattern f pattern)) acc)
    st

/-- FileModEventHandler.__init_file_infos: walk the monitored tree once and
build the seed dict. -/
def init_file_infos {α : Type} (w : WatchEnv α) (monitoring_path : String)
    (patterns : List String) : Store α :=
  (w.walk monitoring_path).foldl (fun acc rf => scanPatterns w rf.1 rf.2 patterns acc)
    (Store.empty α)

/-- The successive actions of IronDome.run, in program order. -/
inductive RunStep where
  | startCpuThread
  | startMemThread
  | startDiskThread
  | makeLogDir
  | configLogging
  | initialScan
  | scheduleObserver
  | startObserver
  | sleepLoop
deriving DecidableEq, BEq

/-- The statement order of IronDome.run: the three probe threads, log setup,
the handler construction (which performs the initial scan), observer
scheduling, observer start, and the idle loop. -/
def run_trace : List RunStep :=
  [RunStep.startCpuThread, RunStep.startMemThread, RunStep.startDiskThread,
   RunStep.makeLogDir, RunStep.configLogging, RunStep.initialScan,
   RunStep.scheduleObserver, RunStep.startObserver, RunStep.sleepLoop]

/-- The IronDome object state after __init__. -/
structure IronDome where
  monitoring_path : String
  patterns : List String
  interval : Int

/-- The path helpers IronDome.__init__ calls: os.path.abspath composed with
expanduser, os.path.isfile, and the two components of os.path.split. -/
structure PathEnv where
  abspath : String → String
  isfile : String → Bool
  splitDir : String → String
  splitFile : String → String

/-- IronDome.__init__: resolve the route, build the glob patterns from the
extension list (or a single star), switch a file route to its parent directory
with the file name as the only pattern, and store the interval. -/
def mkIronDome (env : PathEnv) (dir_path : String) (patterns : List String)
    (interval : Int) : IronDome :=
  let mp := env.abspath dir_path
  let pats := if patterns.isEmpty then [("*")] else patterns.map (fun x => ("*.") ++ x)
  if env.isfile mp then ⟨env.splitDir mp, [env.splitFile mp], interval⟩
  else ⟨mp, pats, interval⟩

/-- Everything observable about one run: the path handed to observer.schedule
with its recursive flag, the seed store the handler is constructed with, the
outcome of processing the delivered event stream against that seed, and the
ordered action trace. -/
structure RunBehavior (α : Type) where
  schedulePath : String
  scheduleRecursive : Bool
  initialStore : Store α
  eventOutcome : HandlerResult α
  trace : List RunStep

/-- IronDome.run: seed the store by the initial scan, schedule and start the
observer on the monitored path, and let the delivered events be processed
against the seeded store. -/
def IronDome.run {α : Type} [LinearOrderedField α] (d : IronDome) (w : WatchEnv α)
    (events : List (FsEvent × Probe α)) : RunBehavior α :=
  let st0 := init_file_infos w d.monitoring_path d.patterns
  ⟨d.monitoring_path, w.isdir d.monitoring_path, st0, processEvents events st0, run_trace⟩

/-- The local sleep_time of IronDome.__disk_check. -/
def disk_sleep_time : Int := 1

/-- The warning decisions of successive IronDome.__disk_check iterations:
given the reading-time counter sampled before the loop and the samples taken
by the iterations, each iteration warns exactly when the delta since the
previous sample exceeds sleep_time * 100. -/
def disk_check_warns : Int → List Int → List Bool
  | _, [] => []
  | last_reading_time, new_reading_time :: rest =>
    decide (new_reading_time - last_reading_time > disk_sleep_time * 100) ::
      disk_check_warns new_reading_time rest

/-- The empirical probability of one byte value in the file's content:
count / file_size, as computed from the Counter built by file_entropy. -/
noncomputable def byteProportion (data : List Nat) (b : Nat) : ℝ :=
  (data.count b : ℝ) / (data.length : ℝ)

/-- The value of the local variable entropy in file_entropy: minus the sum,
over the byte values with nonzero count, of proportion * log(proportion) /
log(2). -/
noncomputable def entropyOfData (data : List Nat) : ℝ :=
  -(∑ b ∈ data.toFinset,
      byteProportion data b * Real.log (byteProportion data b) / Real.log 2)

/-- file_entropy: 0.0 when the existence check fails, otherwise
abs(entropy / 8) over the bytes read from the file. -/
noncomputable def file_entropy (exists_on_disk : Bool) (data : List Nat) : ℝ :=
  if exists_on_disk then |entropyOfData data / 8| else 0

/-- Modelled from the spec's words, for comparison with the code's
entropyOfData: the Shannon entropy minus the sum of p * log2(p) over the byte
values with nonzero count, in bits per byte. -/
noncomputable def shannonEntropy (data : List Nat) : ℝ :=
  -(∑ b ∈ data.toFinset, byteProportion data b * Real.logb 2 (byteProportion data b))

/-- A concrete baseline used by the witnesses. -/
def sampleInfo : FileInfo ℚ := ⟨1 / 10, "text/plain"⟩

/-- A concrete one-entry store used by the witnesses. -/
def sampleStore : Store ℚ := fun q => if q = ("a") then some sampleInfo else none

/-- A concrete probe observing a large entropy jump, used by the witnesses. -/
def sampleProbe : Probe ℚ := ⟨true, Except.ok (1 / 2), Except.ok ("text/plain")⟩

/-- A concrete probe whose read fails after the existence check succeeded:
the file vanished between os.path.exists and open. -/
def vanishProbe : Probe ℚ := ⟨true, Except.error IOError.fileNotFound, Except.ok ("text/plain")⟩

/-- A concrete probe returning measurements identical to sampleInfo. -/
def unchangedProbe : Probe ℚ := ⟨true, Except.ok (1 / 10), Except.ok ("text/plain")⟩

/-- A concrete probe measuring a different entropy and MIME, used to witness
the silent overwrite of a Created event. -/
def vanishCreatedProbe : Probe ℚ := ⟨true, Except.ok (9 / 10), Except.ok ("application/octet-stream")⟩

/-- A probe whose existence check already fails, as left by a completed
deletion. -/
def missingProbe : Probe ℚ := ⟨false, Except.error IOError.fileNotFound, Except.error IOError.fileNotFound⟩

/-- A one-entry walk environment used by the witnesses. -/
def sampleWatchEnv : WatchEnv ℚ :=
  ⟨fun _ => [(("root"), [("x.txt")])], fun _ _ => true, fun _ => true, fun _ => sampleInfo⟩

/-- Two monitor states identical except for the interval flag. -/
def domeOne : IronDome := ⟨("watched"), [("*")], 1⟩

/-- Two monitor states identical except for the interval flag. -/
def domeSixty : IronDome := ⟨("watched"), [("*")], 60⟩

/-- Computation of __update_info on a tracked path whose existence check and
both measurement calls succeed. -/
theorem update_info_tracked_ok {α : Type} [LinearOrderedField α]
    (pr : Probe α) (st : Store α) (p : String) (old : FileInfo α) (e : α) (m : String)
    (hT : st p = some old) (hEx : pr.pathExists = true)
    (hE : pr.entropyRes = Except.ok e) (hM : pr.mimeRes = Except.ok m) :
    update_info pr st p =
      Except.ok (st.set p ⟨e, m⟩,
        (if e - old.entropy > ENTROPY_LIMIT α then [LogMsg.warnEntropy p (e - old.entropy)]
         else []) ++
        (if m ≠ old.mime then [LogMsg.warnMime p old.mime m] else [])) := by
  unfold update_info
  rw [hT, hEx, hE, hM]
  rfl

/-- C1: for a Modified event on a tracked path whose file still exists, the
entropy warning fires exactly when the measured increase exceeds
ENTROPY_LIMIT (so decreases and sub-threshold increases are silent), the MIME
warning fires exactly when the type label changed, and in every case the
stored baseline is replaced by the fresh measurement while other paths are
untouched. -/
theorem modified_anomaly_rule {α : Type} [LinearOrderedField α]
    (pr : Probe α) (st : Store α) (p : String) (old : FileInfo α) (e : α) (m : String)
    (hT : st p = some old) (hEx : pr.pathExists = true)
    (hE : pr.entropyRes = Except.ok e) (hM : pr.mimeRes = Except.ok m) :
    resultRaises (on_modified pr st p) = false ∧
    ((resultLog (on_modified pr st p)).any LogMsg.isEntropyWarning = true ↔
       e - old.entropy > ENTROPY_LIMIT α) ∧
    ((resultLog (on_modified pr st p)).any LogMsg.isMimeWarning = true ↔ m ≠ old.mime) ∧
    resultStore (on_modified pr st p) p = some ⟨e, m⟩ ∧
    (∀ q, q ≠ p → resultStore (on_modified pr st p) q = st q) := by
  have h := update_info_tracked_ok pr st p old e m hT hEx hE hM
  have hmod : on_modified pr st p =
      Except.ok (st.set p ⟨e, m⟩,
        LogMsg.info (p ++ (" modified")) ::
          ((if e - old.entropy > ENTROPY_LIMIT α then [LogMsg.warnEntropy p (e - old.entropy)]
            else []) ++
           (if m ≠ old.mime then [LogMsg.warnMime p old.mime m] else []))) := by
    unfold on_modified
    rw [h]
    rfl
  rw [hmod]
  refine ⟨rfl, ?_, ?_, ?_, ?_⟩
  · by_cases hent : e - old.entropy > ENTROPY_LIMIT α <;>
      by_cases hmime : m ≠ old.mime <;>
      simp [resultLog, hent, hmime, LogMsg.isEntropyWarning, LogMsg.isMimeWarning, LogMsg.isWarning]
  · by_cases hent : e - old.entropy > ENTROPY_LIMIT α <;>
      by_cases hmime : m ≠ old.mime <;>
      simp [resultLog, hent, hmime, LogMsg.isEntropyWarning, LogMsg.isMimeWarning, LogMsg.isWarning]
  · simp [resultStore, Store.set]
  · intro q hq
    simp [resultStore, Store.set, hq]

/-- Witness for C1: with baseline entropy 1/10 and fresh measurement 1/2 over
the same MIME label, the event does not raise, the entropy warning fires, the
baseline is replaced and other paths stay untouched. -/
theorem modified_anomaly_rule_witness :
    resultRaises (on_modified sampleProbe sampleStore ("a")) = false ∧
    (resultLog (on_modified sampleProbe sampleStore ("a"))).any LogMsg.isEntropyWarning = true ∧
    resultStore (on_modified sampleProbe sampleStore ("a")) ("a") =
      some ⟨1 / 2, "text/plain"⟩ ∧
    resultStore (on_modified sampleProbe sampleStore ("a")) ("b") = none := by
  have h := modified_anomaly_rule sampleProbe sampleStore ("a") sampleInfo (1 / 2)
    ("text/plain") rfl rfl rfl rfl
  exact ⟨h.1, h.2.1.mpr (by norm_num [sampleInfo, ENTROPY_LIMIT]), h.2.2.2.1,
    (h.2.2.2.2 ("b") (by decide)).trans rfl⟩

/-- C10: a Created event unconditionally overwrites the path's baseline with
the fresh measurement, performing no comparison, so no warning can ever be
emitted from it, whatever the store held for that path before. -/
theorem created_overwrites_silently {α : Type} [LinearOrderedField α]
    (pr : Probe α) (st : Store α) (p : String) (e : α) (m : String)
    (hE : pr.entropyRes = Except.ok e) (hM : pr.mimeRes = Except.ok m) :
    on_created pr st p = Except.ok (st.set p ⟨e, m⟩, [LogMsg.info (p ++ (" created"))]) ∧
    resultStore (on_created pr st p) p = some ⟨e, m⟩ ∧
    (resultLog (on_created pr st p)).any LogMsg.isWarning = false := by
  have h : on_created pr st p =
      Except.ok (st.set p ⟨e, m⟩, [LogMsg.info (p ++ (" created"))]) := by
    unfold on_created
    rw [hE, hM]
    rfl
  refine ⟨h, ?_, ?_⟩
  · rw [h]
    simp [resultStore, Store.set]
  · rw [h]
    rfl

/-- Witness for C10: re-creating the already-tracked path replaces its
baseline silently even though entropy and MIME changed. -/
theorem created_overwrites_silently_witness :
    resultStore (on_created vanishCreatedProbe sampleStore ("a")) ("a") =
      some ⟨9 / 10, "application/octet-stream"⟩ ∧
    (resultLog (on_created vanishCreatedProbe sampleStore ("a"))).any LogMsg.isWarning = false := by
  have h := created_overwrites_silently vanishCreatedProbe sampleStore ("a") (9 / 10)
    ("application/octet-stream") rfl rfl
  exact ⟨h.2.1, h.2.2⟩

/-- C6: a Deleted event removes a tracked path and is a no-op for an
untracked one; in either case the path is afterwards absent, and a following
Modified event on it leaves the store unchanged. -/
theorem deleted_then_modified_noop {α : Type} [LinearOrderedField α]
    (st : Store α) (p : String) (pr : Probe α) :
    ((st p).isSome = true → (on_deleted st p).1 p = none ∧
        ∀ q, q ≠ p → (on_deleted st p).1 q = st q) ∧
    (st p = none → (on_deleted st p).1 = st) ∧
    (on_deleted st p).1 p = none ∧
    on_modified pr ((on_deleted st p).1) p =
      Except.ok ((on_deleted st p).1, [LogMsg.info (p ++ (" modified"))]) := by
  have habsent : (on_deleted st p).1 p = none := by
    unfold on_deleted
    cases hsp : st p with
    | none => simp [hsp]
    | some v => simp [hsp, Store.del]
  refine ⟨?_, ?_, habsent, ?_⟩
  · intro hs
    cases hsp : st p with
    | none => rw [hsp] at hs; simp at hs
    | some v =>
      constructor
      · exact habsent
      · intro q hq
        unfold on_deleted
        simp [hsp, Store.del, hq]
  · intro hsp
    unfold on_deleted
    simp [hsp]
  · unfold on_modified update_info
    rw [habsent]
    rfl

/-- Witness for C6: deleting the tracked path of the sample store leaves it
untracked and a following Modified event returns the store unchanged. -/
theorem deleted_then_modified_noop_witness :
    (on_deleted sampleStore ("a")).1 ("a") = none ∧
    (on_deleted sampleStore ("a")).1 ("b") = sampleStore ("b") ∧
    on_modified sampleProbe ((on_deleted sampleStore ("a")).1) ("a") =
      Except.ok ((on_deleted sampleStore ("a")).1, [LogMsg.info (("a") ++ (" modified"))]) := by
  have h := deleted_then_modified_noop sampleStore ("a") sampleProbe
  exact ⟨h.2.2.1, (h.1 (by decide)).2 ("b") (by decide), h.2.2.2⟩

/-- C8: each disk-probe iteration warns exactly when the reading-time delta
since the previous sample exceeds 100 times the sleep interval of 1; in
particular a delta of 150 warns and a delta of 50 does not. -/
theorem disk_check_threshold :
    disk_sleep_time = 1 ∧
    (∀ (last : Int) (samples : List Int),
      disk_check_warns last samples =
        (samples.zip (last :: samples)).map
          (fun s => decide (s.1 - s.2 > disk_sleep_time * 100))) ∧
    disk_check_warns 0 [150] = [true] ∧
    disk_check_warns 0 [50] = [false] := by
  refine ⟨rfl, ?_, by decide, by decide⟩
  intro last samples
  induction samples generalizing last with
  | nil => rfl
  | cons a rest ih =>
    simp only [disk_check_warns, List.zip_cons_cons, List.map_cons]
    rw [ih a]

/-- C4: a MovedTo event on a tracked src carries the baseline to dest (src
becomes absent, dest present) and then applies the Modified anomaly logic
against that carried-over baseline, so an unchanged measurement reproduces
the old baseline at dest with no warning; an untracked src is handled like a
fresh Created of dest. -/
theorem moved_transfers_baseline {α : Type} [LinearOrderedField α]
    (pr : Probe α) (st : Store α) (src dest : String) :
    (∀ old e m, st src = some old → src ≠ dest → pr.pathExists = true →
      pr.entropyRes = Except.ok e → pr.mimeRes = Except.ok m →
      resultRaises (on_moved pr st src dest) = false ∧
      resultStore (on_moved pr st src dest) src = none ∧
      resultStore (on_moved pr st src dest) dest = some ⟨e, m⟩ ∧
      ((resultLog (on_moved pr st src dest)).any LogMsg.isEntropyWarning = true ↔
        e - old.entropy > ENTROPY_LIMIT α) ∧
      ((resultLog (on_moved pr st src dest)).any LogMsg.isMimeWarning = true ↔ m ≠ old.mime) ∧
      (e = old.entropy → m = old.mime →
        resultStore (on_moved pr st src dest) dest = some old ∧
        (resultLog (on_moved pr st src dest)).any LogMsg.isWarning = false) ∧
      (∀ q, q ≠ src → q ≠ dest → resultStore (on_moved pr st src dest) q = st q)) ∧
    (st src = none →
      Except.map Prod.fst (on_moved pr st src dest) =
        Except.map Prod.fst (on_created pr st dest)) := by
  constructor
  · intro old e m hT hne hEx hE hM
    have hT1 : ((st.set dest old).del src) dest = some old := by
      simp [Store.set, Store.del, Ne.symm hne]
    have h := update_info_tracked_ok pr ((st.set dest old).del src) dest old e m hT1 hEx hE hM
    have hstep : on_moved pr st src dest = (do
        let r ← update_info pr ((st.set dest old).del src) dest
        pure (r.1, LogMsg.info (src ++ (" moved to ") ++ dest) :: r.2)) := by
      unfold on_moved
      rw [hT]
    have hmov : on_moved pr st src dest =
        Except.ok ((((st.set dest old).del src).set dest ⟨e, m⟩),
          LogMsg.info (src ++ (" moved to ") ++ dest) ::
            ((if e - old.entropy > ENTROPY_LIMIT α then [LogMsg.warnEntropy dest (e - old.entropy)]
              else []) ++
             (if m ≠ old.mime then [LogMsg.warnMime dest old.mime m] else []))) := by
      rw [hstep, h]
      rfl
    rw [hmov]
    refine ⟨rfl, ?_, ?_, ?_, ?_, ?_, ?_⟩
    · simp [resultStore, Store.set, Store.del, hne]
    · simp [resultStore, Store.set]
    · by_cases hent : e - old.entropy > ENTROPY_LIMIT α <;>
        by_cases hmime : m ≠ old.mime <;>
        simp [resultLog, hent, hmime, LogMsg.isEntropyWarning, LogMsg.isMimeWarning]
    · by_cases hent : e - old.entropy > ENTROPY_LIMIT α <;>
        by_cases hmime : m ≠ old.mime <;>
        simp [resultLog, hent, hmime, LogMsg.isEntropyWarning, LogMsg.isMimeWarning]
    · intro he hm
      subst he
      subst hm
      have hlim : (0 : α) < ENTROPY_LIMIT α := by
        unfold ENTROPY_LIMIT
        norm_num
      have hzero : ¬ (old.entropy - old.entropy > ENTROPY_LIMIT α) := by
        rw [sub_self]
        exact lt_asymm hlim
      constructor
      · simp [resultStore, Store.set]
      · simp [resultLog, hzero, LogMsg.isWarning]
        exact le_of_lt hlim
    · intro q hqs hqd
      simp [resultStore, Store.set, Store.del, hqs, hqd]
  · intro hnone
    unfold on_moved on_created
    rw [hnone]
    cases pr.entropyRes <;> cases pr.mimeRes <;> rfl

/-- Witness for C4: renaming the tracked path with unchanged measurements
moves the baseline intact and fires no warning. -/
theorem moved_transfers_baseline_witness :
    resultStore (on_moved unchangedProbe sampleStore ("a") ("b")) ("a") = none ∧
    resultStore (on_moved unchangedProbe sampleStore ("a") ("b")) ("b") = some sampleInfo ∧
    (resultLog (on_moved unchangedProbe sampleStore ("a") ("b"))).any LogMsg.isWarning = false := by
  have h := (moved_transfers_baseline unchangedProbe sampleStore ("a") ("b")).1 sampleInfo
    (1 / 10) ("text/plain") rfl (by decide) rfl rfl rfl
  have hsame := h.2.2.2.2.2.1 rfl rfl
  exact ⟨h.2.1, hsame.1, hsame.2⟩

/-- Counterexample to C3: on a Modified event for a tracked path, the file
vanishes between the existence check and the read; the claim demands that the
path be removed and no exception propagate, but the handler raises and the
exception escapes on_modified. -/
theorem modified_read_failure_raises :
    on_modified vanishProbe sampleStore ("a") = Except.error IOError.fileNotFound ∧
    resultRaises (on_modified vanishProbe sampleStore ("a")) = true := by
  constructor <;> rfl

/-- C3 as amended: an I/O failure is treated as file-no-longer-exists only
when the pre-read existence check reports the file missing, in which case the
tracked path is removed and nothing is raised; a failure during the recompute
itself (the entropy read or the MIME sniff) is not caught and escapes the
handler for both Modified and MovedTo events. -/
theorem update_failure_behavior {α : Type} [LinearOrderedField α]
    (pr : Probe α) (st : Store α) (p src dest : String) (old : FileInfo α) (err : IOError) :
    (st p = some old → pr.pathExists = false →
      on_modified pr st p = Except.ok (st.del p, [LogMsg.info (p ++ (" modified"))])) ∧
    (st p = some old → pr.pathExists = true → pr.entropyRes = Except.error err →
      on_modified pr st p = Except.error err) ∧
    (∀ e, st p = some old → pr.pathExists = true → pr.entropyRes = Except.ok e →
      pr.mimeRes = Except.error err → on_modified pr st p = Except.error err) ∧
    (src ≠ dest → st src = some old → pr.pathExists = true →
      pr.entropyRes = Except.error err → on_moved pr st src dest = Except.error err) := by
  refine ⟨?_, ?_, ?_, ?_⟩
  · intro hT hEx
    unfold on_modified update_info
    rw [hT, hEx]
    rfl
  · intro hT hEx hE
    unfold on_modified update_info
    rw [hT, hEx, hE]
    rfl
  · intro e hT hEx hE hM
    unfold on_modified update_info
    rw [hT, hEx, hE, hM]
    rfl
  · intro hne hT hEx hE
    have hT1 : ((st.set dest old).del src) dest = some old := by
      simp [Store.set, Store.del, Ne.symm hne]
    have hstep : on_moved pr st src dest = (do
        let r ← update_info pr ((st.set dest old).del src) dest
        pure (r.1, LogMsg.info (src ++ (" moved to ") ++ dest) :: r.2)) := by
      unfold on_moved
      rw [hT]
    have hupd : update_info pr ((st.set dest old).del src) dest = Except.error err := by
      unfold update_info
      rw [hT1, hEx, hE]
      rfl
    rw [hstep, hupd]
    rfl

/-- Witness for C3 as amended: a failing existence check removes the entry
without raising, while a read failure after a passing existence check escapes
on_modified and on_moved. -/
theorem update_failure_behavior_witness :
    on_modified missingProbe sampleStore ("a") =
      Except.ok (sampleStore.del ("a"), [LogMsg.info (("a") ++ (" modified"))]) ∧
    on_moved vanishProbe sampleStore ("a") ("b") = Except.error IOError.fileNotFound := by
  have h := update_failure_behavior missingProbe sampleStore ("a") ("a") ("b") sampleInfo
    IOError.fileNotFound
  have h2 := update_failure_behavior vanishProbe sampleStore ("a") ("a") ("b") sampleInfo
    IOError.fileNotFound
  exact ⟨h.1 rfl rfl, h2.2.2.2 (by decide) rfl rfl rfl⟩

/-- Inserting measured baselines for further files never disturbs a path that
already holds its measured baseline. -/
theorem scanFiles_preserves {α : Type} (measure : String → FileInfo α) (r : String)
    (files : List String) (st : Store α) (p : String) (h : st p = some (measure p)) :
    scanFiles measure r files st p = some (measure p) := by
  induction files generalizing st with
  | nil => exact h
  | cons f fs ih =>
    show scanFiles measure r fs (st.set (joinPath r f) (measure (joinPath r f))) p = _
    apply ih
    by_cases hq : p = joinPath r f
    · rw [hq]
      simp [Store.set]
    · simp [Store.set, hq, h]

/-- Every file of the filtered list receives its measured baseline. -/
theorem scanFiles_mem {α : Type} (measure : String → FileInfo α) (r : String)
    (files : List String) (st : Store α) (f : String) (hf : f ∈ files) :
    scanFiles measure r files st (joinPath r f) = some (measure (joinPath r f)) := by
  revert hf
  induction files generalizing st with
  | nil => intro hf; cases hf
  | cons a fs ih =>
    intro hf
    show scanFiles measure r fs (st.set (joinPath r a) (measure (joinPath r a))) (joinPath r f) = _
    rcases List.mem_cons.mp hf with hfa | hfs
    · rw [hfa]
      apply scanFiles_preserves
      simp [Store.set]
    · exact ih _ hfs

/-- The pattern loop never disturbs a path already holding its baseline. -/
theorem scanPatterns_preserves {α : Type} (w : WatchEnv α) (r : String)
    (files : List String) (patterns : List String) (st : Store α) (p : String)
    (h : st p = some (w.measure p)) :
    scanPatterns w r files patterns st p = some (w.measure p) := by
  induction patterns generalizing st with
  | nil => exact h
  | cons a pats ih =>
    exact ih _ (scanFiles_preserves w.measure r _ st p h)

/-- Every file of one walk entry matching some configured pattern receives
its measured baseline. -/
theorem scanPatterns_mem {α : Type} (w : WatchEnv α) (r : String) (files : List String)
    (patterns : List String) (st : Store α) (f pat : String)
    (hpat : pat ∈ patterns) (hf : f ∈ files) (hm : w.matchesPattern f pat = true) :
    scanPatterns w r files patterns st (joinPath r f) = some (w.measure (joinPath r f)) := by
  revert hpat
  induction patterns generalizing st with
  | nil => intro hpat; cases hpat
  | cons a pats ih =>
    intro hpat
    show scanPatterns w r files pats
      (scanFiles w.measure r (files.filter (fun x => w.matchesPattern x a)) st) (joinPath r f) = _
    rcases List.mem_cons.mp hpat with hpa | hps
    · apply scanPatterns_preserves
      apply scanFiles_mem
      rw [hpa] at hm
      exact List.mem_filter.mpr ⟨hf, hm⟩
    · exact ih _ hps

/-- The walk loop never disturbs a path already holding its baseline. -/
theorem walkFold_preserves {α : Type} (w : WatchEnv α) (patterns : List String)
    (entries : List (String × List String)) (st : Store α) (p : String)
    (h : st p = some (w.measure p)) :
    entries.foldl (fun acc rf => scanPatterns w rf.1 rf.2 patterns acc) st p =
      some (w.measure p) := by
  induction entries generalizing st with
  | nil => exact h
  | cons a es ih =>
    exact ih _ (scanPatterns_preserves w a.1 a.2 patterns st p h)

/-- Every matching file of every walk entry receives its measured baseline. -/
theorem walkFold_mem {α : Type} (w : WatchEnv α) (patterns : List String)
    (entries : List (String × List String)) (st : Store α)
    (r f pat : String) (files : List String)
    (hw : (r, files) ∈ entries) (hpat : pat ∈ patterns) (hf : f ∈ files)
    (hm : w.matchesPattern f pat = true) :
    entries.foldl (fun acc rf => scanPatterns w rf.1 rf.2 patterns acc) st (joinPath r f) =
      some (w.measure (joinPath r f)) := by
  revert hw
  induction entries generalizing st with
  | nil => intro hw; cases hw
  | cons a es ih =>
    intro hw
    show es.foldl _ (scanPatterns w a.1 a.2 patterns st) (joinPath r f) = _
    rcases List.mem_cons.mp hw with hwa | hws
    · apply walkFold_preserves
      rw [← hwa]
      exact scanPatterns_mem w r files patterns st f pat hpat hf hm
    · exact ih _ hws

/-- C5: the initial scan inserts a measured baseline for every file of the
walked tree matching a configured pattern; in IronDome.run the handler is
constructed (performing that scan) before the observer is started, the seeded
store is exactly the scan result, and the delivered events are processed
against it. -/
theorem initial_scan_seeds_before_watch {α : Type} [LinearOrderedField α]
    (w : WatchEnv α) (mp : String) (patterns : List String) (d : IronDome)
    (events : List (FsEvent × Probe α)) (r f pat : String) (files : List String)
    (hw : (r, files) ∈ w.walk mp) (hpat : pat ∈ patterns) (hf : f ∈ files)
    (hm : w.matchesPattern f pat = true) :
    init_file_infos w mp patterns (joinPath r f) = some (w.measure (joinPath r f)) ∧
    (d.run w events).initialStore = init_file_infos w d.monitoring_path d.patterns ∧
    (d.run w events).eventOutcome =
      processEvents events (init_file_infos w d.monitoring_path d.patterns) ∧
    run_trace.indexOf RunStep.initialScan < run_trace.indexOf RunStep.startObserver ∧
    (d.run w events).trace = run_trace := by
  refine ⟨?_, rfl, rfl, by decide, rfl⟩
  exact walkFold_mem w patterns (w.walk mp) (Store.empty α) r f pat files hw hpat hf hm

/-- Witness for C5 over the one-entry walk environment. -/
theorem initial_scan_seeds_before_watch_witness :
    init_file_infos sampleWatchEnv ("root") [("*")] (joinPath ("root") ("x.txt")) =
      some sampleInfo ∧
    run_trace.indexOf RunStep.initialScan < run_trace.indexOf RunStep.startObserver := by
  have h := initial_scan_seeds_before_watch sampleWatchEnv ("root") [("*")] domeOne []
    ("root") ("x.txt") ("*") [("x.txt")] (by simp [sampleWatchEnv]) (by simp) (by simp) rfl
  exact ⟨h.1, h.2.2.2.1⟩

/-- Runs of two monitor states agreeing on path and patterns are identical. -/
theorem run_eq_of_fields {α : Type} [LinearOrderedField α] (w : WatchEnv α)
    (events : List (FsEvent × Probe α)) (d1 d2 : IronDome)
    (hp : d1.monitoring_path = d2.monitoring_path) (hpat : d1.patterns = d2.patterns) :
    d1.run w events = d2.run w events := by
  cases d1
  cases d2
  cases hp
  cases hpat
  rfl

/-- C9: the stored interval is only advisory: two runs identical except for
the interval value show identical behavior (schedule target, seeded store,
event outcome, trace), and constructing the monitor with different interval
arguments changes nothing a run observes. -/
theorem interval_is_advisory {α : Type} [LinearOrderedField α]
    (w : WatchEnv α) (events : List (FsEvent × Probe α)) (d1 d2 : IronDome)
    (hp : d1.monitoring_path = d2.monitoring_path) (hpat : d1.patterns = d2.patterns) :
    d1.run w events = d2.run w events ∧
    (∀ env dp pats i j,
      (mkIronDome env dp pats i).run w events = (mkIronDome env dp pats j).run w events) := by
  refine ⟨run_eq_of_fields w events d1 d2 hp hpat, ?_⟩
  intro env dp pats i j
  apply run_eq_of_fields
  · unfold mkIronDome
    by_cases h : env.isfile (env.abspath dp) = true <;> simp [h]
  · unfold mkIronDome
    by_cases h : env.isfile (env.abspath dp) = true <;> simp [h]

/-- Witness for C9: intervals 1 and 60 over the same path and patterns give
the same run behavior. -/
theorem interval_is_advisory_witness :
    IronDome.run domeOne sampleWatchEnv [] = IronDome.run domeSixty sampleWatchEnv [] := by
  exact (interval_is_advisory sampleWatchEnv [] domeOne domeSixty rfl rfl).1

/-- A byte value counted by the scan has positive empirical probability. -/
theorem byteProportion_pos {data : List ℕ} {b : ℕ} (hb : b ∈ data.toFinset) :
    0 < byteProportion data b := by
  unfold byteProportion
  have hmem := List.mem_toFinset.mp hb
  have h1 : 0 < data.count b := List.count_pos_iff.mpr hmem
  have h2 : 0 < data.length := List.length_pos_of_mem hmem
  exact div_pos (by exact_mod_cast h1) (by exact_mod_cast h2)

/-- No byte value has empirical probability above one. -/
theorem byteProportion_le_one {data : List ℕ} (b : ℕ) (hlen : 0 < data.length) :
    byteProportion data b ≤ 1 := by
  unfold byteProportion
  rw [div_le_one (by exact_mod_cast hlen)]
  exact_mod_cast List.count_le_length b data

/-- The counts over the distinct byte values sum to the file size. -/
theorem sum_count_toFinset (data : List ℕ) :
    ∑ b ∈ data.toFinset, data.count b = data.length := by
  simp

/-- The empirical probabilities of a non-empty file sum to one. -/
theorem sum_byteProportion {data : List ℕ} (h : data ≠ []) :
    ∑ b ∈ data.toFinset, byteProportion data b = 1 := by
  unfold byteProportion
  rw [← Finset.sum_div]
  have hc : ∑ b ∈ data.toFinset, (data.count b : ℝ) = (data.length : ℝ) := by
    rw [← Nat.cast_sum]
    exact_mod_cast congrArg (Nat.cast : ℕ → ℝ) (sum_count_toFinset data)
  rw [hc]
  have hl : (0 : ℝ) < (data.length : ℝ) := by exact_mod_cast List.length_pos.mpr h
  exact div_self (ne_of_gt hl)

/-- Each summand of the entropy sum is nonpositive. -/
theorem entropy_term_nonpos {data : List ℕ} {b : ℕ} (hb : b ∈ data.toFinset) :
    byteProportion data b * Real.log (byteProportion data b) / Real.log 2 ≤ 0 := by
  have hmem := List.mem_toFinset.mp hb
  apply div_nonpos_iff.mpr
  refine Or.inr ⟨?_, le_of_lt (Real.log_pos one_lt_two)⟩
  exact Real.mul_log_nonpos (le_of_lt (byteProportion_pos hb))
    (byteProportion_le_one b (List.length_pos_of_mem hmem))

/-- The entropy value computed by file_entropy is nonnegative. -/
theorem entropyOfData_nonneg (data : List ℕ) : 0 ≤ entropyOfData data := by
  unfold entropyOfData
  rw [neg_nonneg]
  exact Finset.sum_nonpos (fun b hb => entropy_term_nonpos hb)

/-- Jensen bound: the natural-log entropy of the byte distribution is at most
the logarithm of the number of distinct byte values. -/
theorem entropy_le_log_card (data : List ℕ) (h : data ≠ []) :
    -(∑ b ∈ data.toFinset, byteProportion data b * Real.log (byteProportion data b)) ≤
      Real.log (data.toFinset.card) := by
  have hpos : ∀ b ∈ data.toFinset, 0 < byteProportion data b :=
    fun b hb => byteProportion_pos hb
  have hjensen := (strictConcaveOn_log_Ioi.concaveOn).le_map_sum
    (fun b hb => le_of_lt (hpos b hb)) (sum_byteProportion h)
    (fun b hb => Set.mem_Ioi.mpr (inv_pos.mpr (hpos b hb)))
  have hlhs : ∑ b ∈ data.toFinset,
      byteProportion data b • Real.log ((byteProportion data b)⁻¹) =
      -(∑ b ∈ data.toFinset, byteProportion data b * Real.log (byteProportion data b)) := by
    rw [← Finset.sum_neg_distrib]
    apply Finset.sum_congr rfl
    intro b hb
    rw [smul_eq_mul, Real.log_inv]
    ring
  have hrhs : ∑ b ∈ data.toFinset, byteProportion data b • (byteProportion data b)⁻¹ =
      ((data.toFinset.card : ℕ) : ℝ) := by
    rw [Finset.sum_congr rfl
      (fun b hb => by rw [smul_eq_mul, mul_inv_cancel₀ (ne_of_gt (hpos b hb))])]
    simp
  rw [hlhs, hrhs] at hjensen
  exact hjensen

/-- The logarithm base change used by file_entropy evaluates to 8 at 256. -/
theorem log_256_div_log_2 : Real.log 256 / Real.log 2 = 8 := by
  have h256 : (256 : ℝ) = 2 ^ (8 : ℕ) := by norm_num
  rw [h256, Real.log_pow]
  push_cast
  rw [mul_div_assoc, div_self (ne_of_gt (Real.log_pos one_lt_two))]
  norm_num

/-- For genuine byte data the entropy value is at most 8 bits per byte. -/
theorem entropyOfData_le_eight (data : List ℕ) (hb : ∀ b ∈ data, b < 256) :
    entropyOfData data ≤ 8 := by
  by_cases h : data = []
  · subst h
    simp [entropyOfData]
  · unfold entropyOfData
    have hstep :
        -(∑ b ∈ data.toFinset,
            byteProportion data b * Real.log (byteProportion data b) / Real.log 2) =
        (-(∑ b ∈ data.toFinset,
            byteProportion data b * Real.log (byteProportion data b))) / Real.log 2 := by
      rw [← Finset.sum_div, neg_div]
    rw [hstep]
    have hcard : ((data.toFinset.card : ℕ) : ℝ) ≤ 256 := by
      have hsub : data.toFinset ⊆ Finset.range 256 := by
        intro b hbb
        exact Finset.mem_range.mpr (hb b (List.mem_toFinset.mp hbb))
      have hc := Finset.card_le_card hsub
      rw [Finset.card_range] at hc
      exact_mod_cast hc
    have hcard_pos : (0 : ℝ) < ((data.toFinset.card : ℕ) : ℝ) := by
      have hne : data.toFinset.Nonempty := by
        rcases List.exists_mem_of_ne_nil data h with ⟨x, hx⟩
        exact ⟨x, List.mem_toFinset.mpr hx⟩
      exact_mod_cast Finset.card_pos.mpr hne
    have h2 : Real.log (data.toFinset.card) ≤ Real.log 256 :=
      Real.log_le_log hcard_pos hcard
    have h3 := le_trans (entropy_le_log_card data h) h2
    calc (-(∑ b ∈ data.toFinset,
            byteProportion data b * Real.log (byteProportion data b))) / Real.log 2
        ≤ Real.log 256 / Real.log 2 :=
          (div_le_div_iff_of_pos_right (Real.log_pos one_lt_two)).mpr h3
      _ = 8 := log_256_div_log_2

/-- The per-term base change shows the code's entropy expression is the
spec's Shannon entropy in base 2. -/
theorem entropyOfData_eq_shannon (data : List ℕ) :
    entropyOfData data = shannonEntropy data := by
  unfold entropyOfData shannonEntropy
  congr 1
  apply Finset.sum_congr rfl
  intro b hb
  rw [Real.logb, mul_div_assoc]

/-- C2: file_entropy always lands in the unit interval for byte data; a
missing file and an empty file give exactly 0.0 without an error; otherwise
the result is the normalized Shannon entropy of the byte distribution divided
by 8. -/
theorem file_entropy_contract (ex : Bool) (data : List ℕ) (hb : ∀ b ∈ data, b < 256) :
    0 ≤ file_entropy ex data ∧
    file_entropy ex data ≤ 1 ∧
    file_entropy false data = 0 ∧
    file_entropy ex [] = 0 ∧
    (data ≠ [] → file_entropy true data = shannonEntropy data / 8) := by
  have hnn := entropyOfData_nonneg data
  have hle := entropyOfData_le_eight data hb
  have habs : |entropyOfData data / 8| = entropyOfData data / 8 :=
    abs_of_nonneg (by positivity)
  refine ⟨?_, ?_, rfl, ?_, ?_⟩
  · cases ex
    · simp [file_entropy]
    · simp only [file_entropy, if_true]
      exact abs_nonneg _
  · cases ex
    · simp [file_entropy]
    · simp only [file_entropy, if_true]
      rw [habs, div_le_one (by norm_num)]
      exact hle
  · cases ex
    · simp [file_entropy]
    · simp [file_entropy, entropyOfData]
  · intro hne
    simp only [file_entropy, if_true]
    rw [habs, entropyOfData_eq_shannon]

/-- Witness for C2 on the two-byte file 0x00 0x01. -/
theorem file_entropy_contract_witness :
    0 ≤ file_entropy true [0, 1] ∧ file_entropy true [0, 1] ≤ 1 ∧
    file_entropy false [0, 1] = 0 := by
  have h := file_entropy_contract true [0, 1] (by decide)
  exact ⟨h.1, h.2.1, h.2.2.1⟩

/-- C7: a non-empty file of one repeated byte value measures exactly 0.0, and
a file in which all 256 byte values occur equally often measures exactly
1.0. -/
theorem entropy_extreme_values :
    (∀ (data : List ℕ) (c : ℕ), data ≠ [] → (∀ b ∈ data, b = c) →
      file_entropy true data = 0) ∧
    (∀ (data : List ℕ) (k : ℕ), 0 < k → (∀ b ∈ data, b < 256) →
      (∀ b ∈ Finset.range 256, data.count b = k) →
      file_entropy true data = 1) := by
  constructor
  · intro data c hne hall
    have hc_mem : c ∈ data := by
      rcases List.exists_mem_of_ne_nil data hne with ⟨x, hx⟩
      exact hall x hx ▸ hx
    have hfin : data.toFinset = {c} := by
      ext b
      simp only [List.mem_toFinset, Finset.mem_singleton]
      exact ⟨fun hbmem => hall b hbmem, fun hbc => hbc ▸ hc_mem⟩
    have hcount : data.count c = data.length :=
      List.count_eq_length.mpr (fun b hbm => (hall b hbm).symm)
    have hprop : byteProportion data c = 1 := by
      unfold byteProportion
      rw [hcount]
      have hl : (0 : ℝ) < (data.length : ℝ) := by exact_mod_cast List.length_pos.mpr hne
      exact div_self (ne_of_gt hl)
    have hent : entropyOfData data = 0 := by
      unfold entropyOfData
      rw [hfin, Finset.sum_singleton, hprop]
      simp
    simp [file_entropy, hent]
  · intro data k hk hlt hcount
    have hfin : data.toFinset = Finset.range 256 := by
      ext b
      simp only [List.mem_toFinset, Finset.mem_range]
      refine ⟨hlt b, fun hb256 => ?_⟩
      have hcb := hcount b (Finset.mem_range.mpr hb256)
      exact List.count_pos_iff.mp (hcb ▸ hk)
    have hlen : data.length = 256 * k := by
      rw [← sum_count_toFinset data, hfin,
        Finset.sum_congr rfl (fun b hb => hcount b hb)]
      simp [Finset.sum_const, Finset.card_range, mul_comm]
    have hk0 : ((k : ℕ) : ℝ) ≠ 0 := Nat.cast_ne_zero.mpr hk.ne'
    have hprop : ∀ b ∈ Finset.range 256, byteProportion data b = 1 / 256 := by
      intro b hbr
      unfold byteProportion
      rw [hcount b hbr, hlen]
      push_cast
      field_simp
      ring
    have hent : entropyOfData data = Real.log 256 / Real.log 2 := by
      unfold entropyOfData
      rw [hfin, Finset.sum_congr rfl (fun b hb => by rw [hprop b hb]),
        Finset.sum_const, Finset.card_range, one_div, Real.log_inv]
      rw [nsmul_eq_mul]
      push_cast
      ring
    have hent8 : entropyOfData data = 8 := hent.trans log_256_div_log_2
    simp [file_entropy, hent8]

/-- Witness for C7: a three-byte constant file measures 0 and the file
holding each byte value once measures 1. -/
theorem entropy_extreme_values_witness :
    file_entropy true [7, 7, 7] = 0 ∧ file_entropy true (List.range 256) = 1 := by
  constructor
  · exact entropy_extreme_values.1 [7, 7, 7] 7 (by decide) (by decide)
  · exact entropy_extreme_values.2 (List.range 256) 1 (by decide)
      (fun b hb => List.mem_range.mp hb)
      (fun b hb => List.count_eq_one_of_mem (List.nodup_range 256)
        (List.mem_range.mpr (Finset.mem_range.mp hb)))

end Irondome
